import Mathlib

/-!
# wifiradio: a verification development of `server.go`

The relay server keeps one shared `ServerState` (catalog, current index, live
downstream connection) that is touched by the HTTP handlers and by the
accept loop `startStreamer`.  This file embeds the functions of `server.go`
as Lean definitions and proves properties of them.

Conventions of the embedding
* a Go `int` is an `Int` kept in the 64-bit range by `wrapInt`;
* a Go `string` / `[]byte` that is parsed is a list of byte values (`GoString`);
* a run-time panic (index out of range, division by zero) is the result `none`;
* results of the operating system and of the network (file read, file write,
  accept, HTTP exchange, process start, copy, wait) are explicit arguments;
* a section of code between `s.mu.Lock()`/`s.mu.RLock()` and the matching
  unlock is one atomic step of the interleaving model `step`; code outside
  such a section is a step of its own.
-/

namespace WifiRadio

/-! ## Go primitives -/

/-- Go string or byte slice, as the list of its byte values. -/
abbrev GoString := List Nat

/-- Two's-complement wrap-around of a Go `int` (64 bits). -/
def wrapInt (x : Int) : Int := (x + 2 ^ 63) % 2 ^ 64 - 2 ^ 63

/-- Go `len(xs)` as an `int`. -/
def goLen {α : Type} (xs : List α) : Int := (xs.length : Int)

/-- Go `a % b` on `int`: truncated remainder, a panic when `b` is zero. -/
def goMod (a b : Int) : Option Int :=
  if b = 0 then none else some (Int.tmod a b)

/-- Go `xs[i]` with an `int` index: a panic when `i` is out of range. -/
def goIndex {α : Type} (xs : List α) (i : Int) : Option α :=
  if 0 ≤ i ∧ i < goLen xs then xs.get? i.toNat else none

/-- The digit loop of `strconv.Atoi` / `strconv.ParseUint` in base 10:
`n = n*10 + (ch - '0')`, a syntax error on a byte that is not a digit. -/
def parseDigits : Nat → GoString → Option Nat
  | n, [] => some n
  | n, ch :: rest =>
    if 48 ≤ ch ∧ ch ≤ 57 then parseDigits (n * 10 + (ch - 48)) rest else none

/-- Go `strconv.Atoi` for a 64-bit `int`: an optional sign `+` (43) or `-` (45),
then at least one decimal digit and nothing else; `none` is the error result
(syntax error, or a value outside the `int` range). -/
def Atoi (s : GoString) : Option Int :=
  match s with
  | [] => none
  | 45 :: rest =>
    if rest = [] then none else
    match parseDigits 0 rest with
    | none => none
    | some n => if n > 2 ^ 63 then none else some (-(n : Int))
  | 43 :: rest =>
    if rest = [] then none else
    match parseDigits 0 rest with
    | none => none
    | some n => if n ≥ 2 ^ 63 then none else some (n : Int)
  | ch :: rest =>
    match parseDigits 0 (ch :: rest) with
    | none => none
    | some n => if n ≥ 2 ^ 63 then none else some (n : Int)

/-- Decimal digits of `n`, most significant first, prepended to `acc`
(the digit loop of `strconv.FormatInt`, with `fuel` bounding its length). -/
def decDigits : Nat → Nat → GoString → GoString
  | 0, _, acc => acc
  | fuel + 1, n, acc =>
    if n < 10 then (48 + n) :: acc
    else decDigits fuel (n / 10) ((48 + n % 10) :: acc)

/-- Go `strconv.Itoa`: decimal representation, with a leading `-` when negative. -/
def Itoa (i : Int) : GoString :=
  if i < 0 then 45 :: decDigits (i.natAbs + 1) i.natAbs []
  else decDigits (i.toNat + 1) i.toNat []

/-! ## Index persistence (`saveCurrentIndex`, `loadCurrentIndex`) -/

/-- Source `loadCurrentIndex`: `file` is the result of `os.ReadFile(statePath)`
(`none` when the read fails). -/
def loadCurrentIndex (file : Option GoString) (maxStations : Int) : Int :=
  match file with
  | none => 0
  | some data =>
    match Atoi data with
    | none => 0
    | some index =>
      if index < 0 ∨ index ≥ maxStations then 0 else index

/-- Result of `os.WriteFile(statePath, data, 0644)`: success, or an error after
which the file holds `left` (`none` when it does not exist). -/
inductive WriteResult where
  | ok
  | failed (left : Option GoString)
  deriving DecidableEq, Repr

/-- Second half of source `saveCurrentIndex`, the part after the read lock is released:
`os.WriteFile(statePath, []byte(strconv.Itoa(index)), 0644)`; an error is only
logged.  The result is the content of the state file afterwards. -/
def writeStateFile (index : Int) (r : WriteResult) : Option GoString :=
  match r with
  | .ok => some (Itoa index)
  | .failed left => left

/-! ## Data model -/

/-- Source `Station`. -/
structure Station where
  Name : String
  StreamURL : String
  MetadataURL : String
  deriving DecidableEq, Repr

/-- Source `SongInfo`. -/
structure SongInfo where
  Timestamp : String
  Artist : String
  Title : String
  deriving DecidableEq, Repr

/-- Source `PlaylistResponse`. -/
structure PlaylistResponse where
  NowPlaying : List SongInfo
  deriving DecidableEq, Repr

/-- Source `NowPlayingResponse`. -/
structure NowPlayingResponse where
  Artist : String
  Title : String
  deriving DecidableEq, Repr

/-- Downstream connection object returned by `listener.Accept()`, identified
by the number of connections accepted before it. -/
abbrev Conn := Nat

/-- Source `ServerState` (the fields read by the code; `mu` is modelled by the
atomicity of the locked sections). -/
structure ServerState where
  currentIdx : Int
  stations : List Station
  currentConn : Option Conn
  deriving DecidableEq, Repr

/-- Source `loadConfig`, after the file is opened and decoded: `decoded` is
`none` when opening or decoding fails; an empty station list is an error. -/
def loadConfig (decoded : Option (List Station)) : Option (List Station) :=
  match decoded with
  | none => none
  | some stations => if stations.length = 0 then none else some stations

/-- Source `getCurrentStation` (runs under `s.mu.RLock()`). -/
def getCurrentStation (s : ServerState) : Option Station :=
  if s.stations.length = 0 then
    some { Name := "", StreamURL := "", MetadataURL := "" }
  else
    match goMod s.currentIdx (goLen s.stations) with
    | none => none
    | some idx => goIndex s.stations idx

/-! ## Metadata resolver (`fetchMetadata`) -/

/-- What `fetchMetadata` observes of its HTTP exchange. -/
inductive HttpOutcome where
  /-- The call `http.NewRequest` returned an error. -/
  | requestError
  /-- The call `http.DefaultClient.Do` returned an error (network failure, timeout). -/
  | transportError
  /-- A response arrived; `decoded` is the result of decoding its body as a
  `PlaylistResponse` (`none` when the JSON is malformed). -/
  | response (status : Nat) (decoded : Option PlaylistResponse)
  deriving DecidableEq, Repr

/-- Source `fetchMetadata`: the returned `SongInfo` and the error (`none` is
Go's `nil`).  The outer `Option` is `none` on a panic. -/
def fetchMetadata (o : HttpOutcome) : Option (SongInfo × Option String) :=
  match o with
  | .requestError =>
    some ({ Timestamp := "", Artist := "", Title := "" }, some "error creating request")
  | .transportError =>
    some ({ Timestamp := "", Artist := "", Title := "" }, some "error fetching metadata")
  | .response status decoded =>
    if status ≠ 200 then
      some ({ Timestamp := "", Artist := "", Title := "" },
        some "received non-200 status code")
    else
      match decoded with
      | none =>
        some ({ Timestamp := "", Artist := "", Title := "" },
          some "error decoding metadata JSON")
      | some data =>
        if data.NowPlaying.length > 0 then
          match goIndex data.NowPlaying 0 with
          | none => none
          | some song => some (song, none)
        else
          some ({ Timestamp := "N/A", Artist := "Unknown", Title := "Unknown" },
            some "now playing array is empty")

/-! ## Control-plane handlers -/

/-- Body written to an HTTP response: plain text, or a JSON object given by
its members in order. -/
inductive Body where
  | text (s : String)
  | json (members : List (String × String))
  deriving DecidableEq, Repr

/-- HTTP response written by a handler. -/
structure Response where
  status : Nat
  contentType : String
  body : Body
  deriving DecidableEq, Repr

/-- Go `json.Marshal` applied to a `NowPlayingResponse`: a struct of two string
fields with the tags `artist` and `title`.  Encoding such a value has no
failing case, so the error result is never produced. -/
def marshalNowPlaying (p : NowPlayingResponse) : Except String (List (String × String)) :=
  .ok [("artist", p.Artist), ("title", p.Title)]

/-- Source `createNowPlayingHandler`: `net` gives, for the URL requested, what
the HTTP exchange of `fetchMetadata` yields. -/
def createNowPlayingHandler (s : ServerState) (net : String → HttpOutcome) : Option Response :=
  match getCurrentStation s with
  | none => none
  | some current =>
    match fetchMetadata (net current.MetadataURL) with
    | none => none
    | some (song, err) =>
      if err ≠ none then
        some { status := 500, contentType := "text/plain",
               body := .text "Error - Error fetching song data" }
      else
        let responsePayload : NowPlayingResponse :=
          { Artist := song.Artist, Title := song.Title }
        match marshalNowPlaying responsePayload with
        | .error _ =>
          some { status := 500, contentType := "text/plain",
                 body := .text "Error - Failed to format JSON response" }
        | .ok jsonResponse =>
          some { status := 200, contentType := "application/json",
                 body := .json jsonResponse }

/-- JSON object written by the `/next` handler. -/
structure NextResponse where
  message : String
  station : String
  index : Int
  deriving DecidableEq, Repr

/-- JSON object written by the `/current` handler. -/
structure CurrentResponse where
  station : String
  index : Int
  deriving DecidableEq, Repr

/-- Result of the locked section of the `/next` handler. -/
structure NextUpdate where
  /-- The store after the section. -/
  state : ServerState
  /-- The connections on which `Close` was called inside the section. -/
  closed : List Conn
  /-- The local `currentName`. -/
  currentName : String
  deriving DecidableEq, Repr

/-- Source `createNextHandler`, the section between `s.mu.Lock()` and
`s.mu.Unlock()`. -/
def nextLocked (s : ServerState) : Option NextUpdate :=
  let closed : List Conn :=
    match s.currentConn with
    | some c => [c]
    | none => []
  let s1 : ServerState := { s with currentConn := none }
  match goMod (wrapInt (s1.currentIdx + 1)) (goLen s1.stations) with
  | none => none
  | some idx =>
    let s2 : ServerState := { s1 with currentIdx := idx }
    match goIndex s2.stations s2.currentIdx with
    | none => none
    | some st => some { state := s2, closed := closed, currentName := st.Name }

/-- Source `createNextHandler`, the response built after `saveCurrentIndex`:
`station` is the local `currentName`, `index` is read from `s.currentIdx` at
that moment. -/
def nextRespond (s : ServerState) (currentName : String) : NextResponse :=
  { message := "Switched to next station", station := currentName, index := s.currentIdx }

/-- Source `createCurrentHandler`: both values are read inside one
`s.mu.RLock()` section. -/
def createCurrentHandler (s : ServerState) : Option CurrentResponse :=
  match goIndex s.stations s.currentIdx with
  | none => none
  | some st => some { station := st.Name, index := s.currentIdx }

/-- Source `saveCurrentIndex` run without interference: the index is read under
the read lock and then written to the state file.  The result is the content
of the state file afterwards. -/
def saveCurrentIndex (s : ServerState) (wr : WriteResult) : Option GoString :=
  let index := s.currentIdx
  writeStateFile index wr

/-- Source `createNextHandler` run without interference from other requests:
the locked section, `saveCurrentIndex` (read of the index under the read lock,
then the file write) and the response.  The result is the store, the
connections closed, the state file and the response. -/
def createNextHandler (s : ServerState) (wr : WriteResult) :
    Option (ServerState × List Conn × Option GoString × NextResponse) :=
  match nextLocked s with
  | none => none
  | some u =>
    let file := saveCurrentIndex u.state wr
    some (u.state, u.closed, file, nextRespond u.state u.currentName)

/-- Sequential `/next` requests, one per write result in `wrs`: the final store
and the responses in order. -/
def nextSeq : List WriteResult → ServerState → Option (ServerState × List NextResponse)
  | [], s => some (s, [])
  | wr :: wrs, s =>
    match createNextHandler s wr with
    | none => none
    | some (s1, _, _, r) =>
      match nextSeq wrs s1 with
      | none => none
      | some (s2, rs) => some (s2, r :: rs)

/-! ## Data-plane loop (`startStreamer`) -/

/-- How `io.Copy(conn, stdout)` ended: `copyErr == nil` (end of the stream) or
an error (the connection broke), after `n` bytes. -/
inductive CopyResult where
  | eof (n : Nat)
  | broken (n : Nat)
  deriving DecidableEq, Repr

/-- What `ffmpegCmd.Wait()` returned: `nil`, an `*exec.ExitError` with its exit
code, or another error. -/
inductive WaitResult where
  | success
  | exitError (code : Int)
  | otherError
  deriving DecidableEq, Repr

/-- The line logged after `ffmpegCmd.Wait()`. -/
inductive ExitLog where
  | expectedEPIPE (code : Int)
  | unexpectedExit (code : Int)
  | waitError
  | exitedNormally
  deriving DecidableEq, Repr

/-- Source `startStreamer`, the branches on the result of `ffmpegCmd.Wait()`. -/
def classifyWait (r : WaitResult) : ExitLog :=
  match r with
  | .exitError code => if code = 224 then .expectedEPIPE code else .unexpectedExit code
  | .otherError => .waitError
  | .success => .exitedNormally

/-- What the environment does during one iteration of the loop after a
successful accept. -/
inductive RunOutcome where
  /-- The call `ffmpegCmd.StdoutPipe()` returned an error. -/
  | pipeFailed
  /-- The call `ffmpegCmd.Start()` returned an error. -/
  | startFailed
  /-- The process started; `closeOk` is whether `stdout.Close()` succeeded. -/
  | started (copy : CopyResult) (closeOk : Bool) (wait : WaitResult)
  deriving DecidableEq, Repr

/-- One operation of the loop body of `startStreamer`. -/
inductive Op where
  /-- Locked section `s.mu.Lock(); s.currentConn = conn; s.mu.Unlock()`. -/
  | attach (c : Conn)
  /-- Read `current := s.getCurrentStation()` and the construction of the command. -/
  | selectStation
  /-- The call `ffmpegCmd.StdoutPipe()` and whether it succeeded. -/
  | stdoutPipe (ok : Bool)
  /-- The call `ffmpegCmd.Start()` and whether it succeeded. -/
  | start (ok : Bool)
  /-- The call `io.Copy(conn, stdout)` and the line logged for its result. -/
  | copy (r : CopyResult)
  /-- The call `stdout.Close()` and whether it succeeded. -/
  | stdoutClose (ok : Bool)
  /-- The call `ffmpegCmd.Wait()` and its result. -/
  | wait (r : WaitResult)
  /-- The line logged for the result of `Wait`. -/
  | logExit (l : ExitLog)
  /-- Locked section `s.mu.Lock(); s.currentConn = nil; s.mu.Unlock()`. -/
  | detach
  /-- The call `conn.Close()` on the accepted connection. -/
  | connClose (c : Conn)
  deriving DecidableEq, Repr

/-- Source `startStreamer`, the loop body after a successful `Accept`: the
operations it performs, in order, until it is back at `Accept`. -/
def startStreamer (conn : Conn) (o : RunOutcome) : List Op :=
  [Op.attach conn, Op.selectStation] ++
  match o with
  | .pipeFailed =>
    [Op.stdoutPipe false, Op.detach, Op.connClose conn]
  | .startFailed =>
    [Op.stdoutPipe true, Op.start false, Op.stdoutClose true, Op.detach, Op.connClose conn]
  | .started copy closeOk wait =>
    [Op.stdoutPipe true, Op.start true, Op.copy copy, Op.stdoutClose closeOk, Op.wait wait,
     Op.logExit (classifyWait wait), Op.detach, Op.connClose conn]

/-- Phases of one pipeline run. -/
inductive Phase where
  | spawning
  | streaming
  | draining
  | reaped
  deriving DecidableEq, Repr

/-- Phase of the pipeline run after the loop performs `op` in phase `p`: the
run streams once the process has started, drains once the copy has ended, and
is reaped once `Wait` has returned or when the process could not be started. -/
def phaseStep (p : Phase) (op : Op) : Phase :=
  match p, op with
  | .spawning, .stdoutPipe false => .reaped
  | .spawning, .start false => .reaped
  | .spawning, .start true => .streaming
  | .streaming, .copy _ => .draining
  | .draining, .wait _ => .reaped
  | p, _ => p

/-- Phases visited by a run, in order, without repetitions of one phase. -/
def phases : Phase → List Op → List Phase
  | p, [] => [p]
  | p, op :: rest =>
    if phaseStep p op = p then phases p rest else p :: phases (phaseStep p op) rest

/-! ## Interleaving model -/

/-- Who called `Close` on a downstream connection. -/
inductive Closer where
  | handler
  | streamer
  deriving DecidableEq, Repr

/-- State of the goroutine running `startStreamer`. -/
inductive Streamer where
  /-- In the loop, with the operations left in the current iteration;
  `running []` is the loop blocked in `listener.Accept()`. -/
  | running (rest : List Op)
  /-- The loop has returned (the listener was closed). -/
  | returned
  deriving DecidableEq, Repr

/-- Progress of one `/next` request through `createNextHandler`. -/
inductive NextPc where
  /-- Before `s.mu.Lock()`. -/
  | start
  /-- After `s.mu.Unlock()`, before `saveCurrentIndex` takes the read lock. -/
  | updated (currentName : String)
  /-- In `saveCurrentIndex` after `s.mu.RUnlock()`, before the file write. -/
  | saving (currentName : String) (index : Int)
  /-- After `saveCurrentIndex`, before the response is built. -/
  | saved (currentName : String)
  /-- The response has been written. -/
  | done (r : NextResponse)
  deriving DecidableEq, Repr

/-- State of the whole server. -/
structure World where
  /-- The shared `serverState`. -/
  store : ServerState
  /-- Every call of `Close` on a downstream connection so far, oldest first. -/
  closeCalls : List (Closer × Conn)
  /-- Content of the state file (`none` when it does not exist). -/
  stateFile : Option GoString
  /-- Number of connections accepted so far. -/
  accepted : Nat
  /-- The data-plane goroutine. -/
  streamer : Streamer
  /-- Operations performed by the data-plane goroutine so far, oldest first. -/
  trace : List Op
  /-- The `/next` requests received so far. -/
  nextReqs : List NextPc
  deriving DecidableEq, Repr

/-- Result of `listener.Accept()`. -/
inductive AcceptResult where
  /-- A connection; `o` is what the environment does during its iteration. -/
  | conn (o : RunOutcome)
  /-- The error "use of closed network connection". -/
  | listenerClosed
  /-- Any other error. -/
  | otherError
  deriving DecidableEq, Repr

/-- One step of one goroutine. -/
inductive Action where
  /-- The call `listener.Accept()` returns in the data-plane loop. -/
  | accept (r : AcceptResult)
  /-- The data-plane loop performs its next operation. -/
  | streamerOp
  /-- The request `GET /next` arrives. -/
  | nextArrive
  /-- The handler of `/next` request number `i` performs its next section. -/
  | nextStep (i : Nat) (wr : WriteResult)
  /-- The request `GET /current` is handled. -/
  | current
  /-- The request `GET /nowplaying` is handled. -/
  | nowPlaying (net : String → HttpOutcome)

/-- Effect of one operation of the data-plane loop. -/
def applyOp (op : Op) (w : World) : Option World :=
  match op with
  | .attach c =>
    some { w with store := { w.store with currentConn := some c }, trace := w.trace ++ [op] }
  | .selectStation =>
    match getCurrentStation w.store with
    | none => none
    | some _ => some { w with trace := w.trace ++ [op] }
  | .detach =>
    some { w with store := { w.store with currentConn := none }, trace := w.trace ++ [op] }
  | .connClose c =>
    some { w with closeCalls := w.closeCalls ++ [(Closer.streamer, c)],
                  trace := w.trace ++ [op] }
  | _ => some { w with trace := w.trace ++ [op] }

/-- One section of the handler of a `/next` request. -/
def nextSection (pc : NextPc) (wr : WriteResult) (w : World) : Option (NextPc × World) :=
  match pc with
  | .start =>
    match nextLocked w.store with
    | none => none
    | some u =>
      some (.updated u.currentName,
        { w with store := u.state,
                 closeCalls := w.closeCalls ++ u.closed.map (fun c => (Closer.handler, c)) })
  | .updated currentName => some (.saving currentName w.store.currentIdx, w)
  | .saving currentName index =>
    some (.saved currentName, { w with stateFile := writeStateFile index wr })
  | .saved currentName => some (.done (nextRespond w.store currentName), w)
  | .done _ => none

/-- Step function of the server: `none` when the action is not enabled or
when the code panics. -/
def step (w : World) (a : Action) : Option World :=
  match a with
  | .accept r =>
    match w.streamer with
    | .running [] =>
      match r with
      | .conn o =>
        some { w with accepted := w.accepted + 1,
                      streamer := .running (startStreamer w.accepted o) }
      | .listenerClosed => some { w with streamer := .returned }
      | .otherError => some w
    | _ => none
  | .streamerOp =>
    match w.streamer with
    | .running (op :: rest) =>
      match applyOp op w with
      | none => none
      | some w1 => some { w1 with streamer := .running rest }
    | _ => none
  | .nextArrive => some { w with nextReqs := w.nextReqs ++ [NextPc.start] }
  | .nextStep i wr =>
    match w.nextReqs.get? i with
    | none => none
    | some pc =>
      match nextSection pc wr w with
      | none => none
      | some (pc1, w1) => some { w1 with nextReqs := w1.nextReqs.set i pc1 }
  | .current =>
    match createCurrentHandler w.store with
    | none => none
    | some _ => some w
  | .nowPlaying net =>
    match createNowPlayingHandler w.store net with
    | none => none
    | some _ => some w

/-- Execution of a list of actions. -/
def run : World → List Action → Option World
  | w, [] => some w
  | w, a :: as =>
    match step w a with
    | none => none
    | some w1 => run w1 as

/-- Source `main` up to the start of the two goroutines: `decoded` is the
configuration file as decoded (`none` when it cannot be read or decoded),
`file` the result of reading the state file, `listenOk` whether `net.Listen`
succeeded.  `none` when `main` stops (`log.Fatalf`) or panics. -/
def main (decoded : Option (List Station)) (file : Option GoString) (listenOk : Bool) :
    Option World :=
  match loadConfig decoded with
  | none => none
  | some stations =>
    let initialIndex := loadCurrentIndex file (goLen stations)
    match goIndex stations initialIndex with
    | none => none
    | some _ =>
      if listenOk then
        some { store := { currentIdx := initialIndex, stations := stations, currentConn := none },
               closeCalls := [], stateFile := file, accepted := 0,
               streamer := .running [], trace := [], nextReqs := [] }
      else none

/-- States of the server reachable from a start of `main` with a catalog of
fewer than `2 ^ 63` stations (the length of a Go slice is an `int`). -/
def Reachable (w : World) : Prop :=
  ∃ decoded file listenOk w0 acts,
    (∀ sts, decoded = some sts → goLen sts < 2 ^ 63) ∧
    main decoded file listenOk = some w0 ∧ run w0 acts = some w

/-! ## Predicates used in the proofs -/

/-- The store holds a valid index into a catalog whose length is a Go `int`. -/
def ValidIndex (s : ServerState) : Prop :=
  0 ≤ s.currentIdx ∧ s.currentIdx < goLen s.stations ∧ goLen s.stations < 2 ^ 63

/-- Relation between the store, the calls of `Close` and the position of the
data-plane loop: outside an iteration the store holds no connection; inside
the iteration of connection `c` the store holds nothing or `c`, it holds
nothing before the attach and after the detach, and `c` is not closed while
the store holds it or is about to. -/
def StreamerInv (w : World) : Prop :=
  (∀ x ∈ w.closeCalls, x.2 < w.accepted) ∧
  match w.streamer with
  | .returned => w.store.currentConn = none
  | .running [] => w.store.currentConn = none
  | .running (op :: rest) =>
    ∃ c o, c < w.accepted ∧ op :: rest <:+ startStreamer c o ∧
      ((∃ c1, Op.attach c1 ∈ op :: rest) →
        w.store.currentConn = none ∧ ∀ k, (k, c) ∉ w.closeCalls) ∧
      (Op.detach ∉ op :: rest → w.store.currentConn = none) ∧
      (∀ c1, w.store.currentConn = some c1 → c1 = c ∧ ∀ k, (k, c) ∉ w.closeCalls)

/-- Invariant of the server: a valid index, and `StreamerInv`. -/
def Inv (w : World) : Prop := ValidIndex w.store ∧ StreamerInv w

/-- Whether an operation of the loop is a call of `ffmpegCmd.Wait()`. -/
def isWait (op : Op) : Bool :=
  match op with
  | .wait _ => true
  | _ => false

/-- The calls of `Close` on a downstream connection made by an operation of
the loop. -/
def opCloses (op : Op) : List (Closer × Conn) :=
  match op with
  | .connClose c => [(Closer.streamer, c)]
  | _ => []

/-- Progress of the iteration with body `body` that started when the trace
was `t0`: either the loop is inside it, with the operations performed and the
operations left making up `body`, or the whole of `body` was performed; in
both cases the loop has called `Close` on `c` if it performed `connClose c`. -/
def IterationProgress (t0 : List Op) (c : Conn) (body : List Op) (w : World) : Prop :=
  (∃ t op rest, w.streamer = .running (op :: rest) ∧ w.trace = t0 ++ t ∧
      t ++ op :: rest = body ∧
      (Op.connClose c ∈ t → (Closer.streamer, c) ∈ w.closeCalls)) ∨
  (∃ later, w.trace = t0 ++ body ++ later ∧
      (Op.connClose c ∈ body → (Closer.streamer, c) ∈ w.closeCalls))

/-! ## Example executions -/

/-- Catalog of three stations. -/
def demoStations : List Station :=
  [⟨"A", "a", "ma"⟩, ⟨"B", "b", "mb"⟩, ⟨"C", "c", "mc"⟩]

/-- State after `main` starts with `demoStations` and the state file `"1"`. -/
def demoInit : World :=
  { store := { currentIdx := 1, stations := demoStations, currentConn := none },
    closeCalls := [], stateFile := some [49], accepted := 0,
    streamer := .running [], trace := [], nextReqs := [] }

/-- An iteration in which the process starts, the copy breaks after 4096 bytes
and the process exits with code 224. -/
def demoOutcome : RunOutcome := .started (.broken 4096) true (.exitError 224)

/-- The state `demoInit` after a connection is accepted. -/
def demoAccepted : World :=
  { demoInit with accepted := 1, streamer := .running (startStreamer 0 demoOutcome) }

/-- The loop attaches the connection and selects the station, then a `/next`
request arrives and runs its locked section. -/
def demoSwitchActs : List Action :=
  [.streamerOp, .streamerOp, .nextArrive, .nextStep 0 .ok]

/-- The state reached from `demoAccepted` by `demoSwitchActs`. -/
def demoSwitched : World :=
  { store := { currentIdx := 2, stations := demoStations, currentConn := none },
    closeCalls := [(Closer.handler, 0)], stateFile := some [49], accepted := 1,
    streamer := .running
      [Op.stdoutPipe true, Op.start true, Op.copy (.broken 4096), Op.stdoutClose true,
       Op.wait (.exitError 224), Op.logExit (.expectedEPIPE 224), Op.detach, Op.connClose 0],
    trace := [Op.attach 0, Op.selectStation], nextReqs := [NextPc.updated "C"] }

/-- The state reached from `demoSwitched` when the loop finishes its iteration. -/
def demoFinal : World :=
  { store := { currentIdx := 2, stations := demoStations, currentConn := none },
    closeCalls := [(Closer.handler, 0), (Closer.streamer, 0)], stateFile := some [49],
    accepted := 1, streamer := .running [],
    trace := [Op.attach 0, Op.selectStation, Op.stdoutPipe true, Op.start true,
      Op.copy (.broken 4096), Op.stdoutClose true, Op.wait (.exitError 224),
      Op.logExit (.expectedEPIPE 224), Op.detach, Op.connClose 0],
    nextReqs := [NextPc.updated "C"] }

/-- State after `main` starts with `demoStations` and no state file. -/
def raceInit : World :=
  { store := { currentIdx := 0, stations := demoStations, currentConn := none },
    closeCalls := [], stateFile := none, accepted := 0,
    streamer := .running [], trace := [], nextReqs := [] }

/-- Two `/next` requests: the second runs its locked section after the first
has released the lock and before the first builds its response. -/
def raceActs : List Action :=
  [.nextArrive, .nextArrive, .nextStep 0 .ok, .nextStep 1 .ok,
   .nextStep 0 .ok, .nextStep 0 .ok, .nextStep 0 .ok]

/-- The state `demoAccepted` after the loop has attached the connection. -/
def demoAttached : World :=
  { store := { currentIdx := 1, stations := demoStations, currentConn := some 0 },
    closeCalls := [], stateFile := some [49], accepted := 1,
    streamer := .running (startStreamer 0 demoOutcome).tail,
    trace := [Op.attach 0], nextReqs := [NextPc.start] }

/-! ## Lemmas on the Go primitives -/

theorem wrapInt_of_range (x : Int) (h0 : -2 ^ 63 ≤ x) (h1 : x < 2 ^ 63) : wrapInt x = x := by
  unfold wrapInt
  omega

theorem goMod_succ (idx len : Int) (h0 : 0 ≤ idx) (h1 : idx < len) (h2 : len < 2 ^ 63) :
    goMod (wrapInt (idx + 1)) len = some ((idx + 1) % len) := by
  have hw : wrapInt (idx + 1) = idx + 1 := wrapInt_of_range _ (by omega) (by omega)
  have hne : len ≠ 0 := by omega
  simp only [goMod, hw, hne, if_false]
  rw [Int.tmod_eq_emod (by omega) (by omega)]

theorem goMod_of_valid (idx len : Int) (h0 : 0 ≤ idx) (h1 : idx < len) :
    goMod idx len = some idx := by
  have hne : len ≠ 0 := by omega
  simp only [goMod, hne, if_false]
  rw [Int.tmod_eq_emod (by omega) (by omega), Int.emod_eq_of_lt h0 h1]

theorem goIndex_isSome {α : Type} (xs : List α) (i : Int) (h0 : 0 ≤ i) (h1 : i < goLen xs) :
    ∃ x, goIndex xs i = some x ∧ xs.get? i.toNat = some x := by
  unfold goIndex
  unfold goLen at h1
  have hlt : i.toNat < xs.length := by omega
  refine ⟨xs.get ⟨i.toNat, hlt⟩, ?_, ?_⟩
  · simp only [goLen, h0, h1, and_self, if_true]
    exact List.get?_eq_get hlt
  · exact List.get?_eq_get hlt

/-- Parsing the digits written by `decDigits` in front of `acc` continues the
parse of `acc` from the number written. -/
theorem parseDigits_decDigits (fuel : Nat) :
    ∀ (n : Nat) (acc : GoString), n < fuel →
      parseDigits 0 (decDigits fuel n acc) = parseDigits n acc := by
  induction fuel with
  | zero => intro n acc h; omega
  | succ fuel ih =>
    intro n acc h
    unfold decDigits
    by_cases hn : n < 10
    · have hd : 48 ≤ 48 + n ∧ 48 + n ≤ 57 := by omega
      simp only [hn, if_true, parseDigits, hd, and_self]
      congr 1
      omega
    · simp only [hn, if_false]
      rw [ih (n / 10) _ (by omega)]
      have hd : 48 ≤ 48 + n % 10 ∧ 48 + n % 10 ≤ 57 := by omega
      simp only [parseDigits, hd, and_self, if_true]
      congr 1
      omega

/-- With fuel left, `decDigits` writes at least one byte and the first byte
written is a digit whenever the first byte of `acc` is. -/
theorem decDigits_head (fuel : Nat) :
    ∀ (n : Nat) (acc : GoString), (∀ d rest, acc = d :: rest → 48 ≤ d ∧ d ≤ 57) →
      0 < fuel → ∃ d rest, decDigits fuel n acc = d :: rest ∧ 48 ≤ d ∧ d ≤ 57 := by
  induction fuel with
  | zero => intro n acc _ h; omega
  | succ fuel ih =>
    intro n acc hacc _
    unfold decDigits
    by_cases hn : n < 10
    · exact ⟨48 + n, acc, by simp [hn], by omega, by omega⟩
    · simp only [hn, if_false]
      have hd : ∀ d rest, (48 + n % 10) :: acc = d :: rest → 48 ≤ d ∧ d ≤ 57 := by
        intro d rest h
        have : d = 48 + n % 10 := by injection h with h1 h2; exact h1.symm
        omega
      cases fuel with
      | zero => exact ⟨48 + n % 10, acc, by simp [decDigits], by omega, by omega⟩
      | succ fuel => exact ih (n / 10) _ hd (by omega)

theorem Atoi_of_digits (d : Nat) (rest : GoString) (n : Nat) (hd : 48 ≤ d ∧ d ≤ 57)
    (hp : parseDigits 0 (d :: rest) = some n) (hn : n < 2 ^ 63) :
    Atoi (d :: rest) = some (n : Int) := by
  have h45 : d ≠ 45 := by omega
  have h43 : d ≠ 43 := by omega
  have hn' : ¬ n ≥ 2 ^ 63 := by omega
  unfold Atoi
  split
  · rename_i h; cases h
  · rename_i h; injection h with h1 _; exact absurd h1 h45
  · rename_i h; injection h with h1 _; exact absurd h1 h43
  · rename_i ch r _ _ h
    injection h with h1 h2
    subst h1; subst h2
    rw [hp]
    simp only [hn', if_false]

/-- Go `strconv.Atoi(strconv.Itoa(i)) = i` for a non-negative `int`. -/
theorem Atoi_Itoa (i : Int) (h0 : 0 ≤ i) (h1 : i < 2 ^ 63) : Atoi (Itoa i) = some i := by
  have hneg : ¬ i < 0 := by omega
  unfold Itoa
  simp only [hneg, if_false]
  obtain ⟨d, rest, hdr, hd⟩ :=
    decDigits_head (i.toNat + 1) i.toNat [] (by intro d rest h; cases h) (by omega)
  have hp : parseDigits 0 (d :: rest) = some i.toNat := by
    rw [← hdr, parseDigits_decDigits _ _ _ (by omega)]
    rfl
  rw [hdr, Atoi_of_digits d rest i.toNat hd hp (by omega)]
  congr 1
  omega

theorem loadCurrentIndex_Itoa (N i : Int) (hN : N < 2 ^ 63) (h0 : 0 ≤ i) (h1 : i < N) :
    loadCurrentIndex (some (Itoa i)) N = i := by
  unfold loadCurrentIndex
  simp only [Atoi_Itoa i h0 (by omega)]
  have : ¬ (i < 0 ∨ i ≥ N) := by omega
  simp only [this, if_false]

/-! ## Lemmas on the store -/

theorem nextLocked_of_valid (s : ServerState) (h : ValidIndex s) :
    ∃ st, s.stations.get? ((s.currentIdx + 1) % goLen s.stations).toNat = some st ∧
      nextLocked s = some
        { state := { currentIdx := (s.currentIdx + 1) % goLen s.stations,
                     stations := s.stations, currentConn := none },
          closed := (match s.currentConn with
            | some c => [c]
            | none => []),
          currentName := st.Name } := by
  obtain ⟨h0, h1, h2⟩ := h
  have hpos : 0 < goLen s.stations := by omega
  have hm0 : 0 ≤ (s.currentIdx + 1) % goLen s.stations := Int.emod_nonneg _ (by omega)
  have hm1 : (s.currentIdx + 1) % goLen s.stations < goLen s.stations :=
    Int.emod_lt_of_pos _ hpos
  obtain ⟨st, hst, hget⟩ := goIndex_isSome s.stations _ hm0 hm1
  refine ⟨st, hget, ?_⟩
  simp only [nextLocked, goMod_succ _ _ h0 h1 h2, hst]

theorem createNextHandler_of_valid (s : ServerState) (wr : WriteResult) (h : ValidIndex s) :
    ∃ st, s.stations.get? ((s.currentIdx + 1) % goLen s.stations).toNat = some st ∧
      createNextHandler s wr = some
        ({ currentIdx := (s.currentIdx + 1) % goLen s.stations, stations := s.stations,
           currentConn := none },
         (match s.currentConn with
           | some c => [c]
           | none => []),
         writeStateFile ((s.currentIdx + 1) % goLen s.stations) wr,
         { message := "Switched to next station", station := st.Name,
           index := (s.currentIdx + 1) % goLen s.stations }) := by
  obtain ⟨st, hget, heq⟩ := nextLocked_of_valid s h
  exact ⟨st, hget, by simp only [createNextHandler, heq, nextRespond, saveCurrentIndex]⟩

theorem nextLocked_valid (s : ServerState) (h : ValidIndex s) (u : NextUpdate)
    (hu : nextLocked s = some u) : ValidIndex u.state ∧ u.state.stations = s.stations := by
  obtain ⟨st, _, heq⟩ := nextLocked_of_valid s h
  rw [heq] at hu
  injection hu with hu
  subst hu
  obtain ⟨h0, h1, h2⟩ := h
  have hpos : 0 < goLen s.stations := by omega
  exact ⟨⟨Int.emod_nonneg _ (by omega), Int.emod_lt_of_pos _ hpos, h2⟩, rfl⟩

theorem getCurrentStation_of_valid (s : ServerState) (h : ValidIndex s) :
    getCurrentStation s = s.stations.get? s.currentIdx.toNat ∧
      ∃ st, getCurrentStation s = some st := by
  obtain ⟨h0, h1, _⟩ := h
  have hne : ¬ s.stations.length = 0 := by unfold goLen at h1; omega
  obtain ⟨st, hst, hget⟩ := goIndex_isSome s.stations _ h0 h1
  have : getCurrentStation s = some st := by
    simp only [getCurrentStation, hne, if_false, goMod_of_valid _ _ h0 h1, hst]
  exact ⟨by rw [this, hget], st, this⟩

theorem createCurrentHandler_of_valid (s : ServerState) (h : ValidIndex s) :
    ∃ st, s.stations.get? s.currentIdx.toNat = some st ∧
      createCurrentHandler s = some { station := st.Name, index := s.currentIdx } := by
  obtain ⟨h0, h1, _⟩ := h
  obtain ⟨st, hst, hget⟩ := goIndex_isSome s.stations _ h0 h1
  exact ⟨st, hget, by simp only [createCurrentHandler, hst]⟩

theorem fetchMetadata_isSome (o : HttpOutcome) : ∃ r, fetchMetadata o = some r := by
  cases o with
  | requestError => exact ⟨_, rfl⟩
  | transportError => exact ⟨_, rfl⟩
  | response status decoded =>
    unfold fetchMetadata
    by_cases hs : status = 200
    · cases decoded with
      | none => simp [hs]
      | some data =>
        rcases data with ⟨l⟩
        cases l with
        | nil => simp [hs]
        | cons a l => simp [hs, goIndex, goLen]
    · simp [hs]

theorem createNextHandler_of_nat (stations : List Station) (conn : Option Conn) (i : Nat)
    (wr : WriteResult) (hi : i < stations.length) (hlen : goLen stations < 2 ^ 63) :
    ∃ st, stations.get? ((i + 1) % stations.length) = some st ∧
      createNextHandler { currentIdx := (i : Int), stations := stations, currentConn := conn } wr =
        some ({ currentIdx := (((i + 1) % stations.length : Nat) : Int),
                stations := stations, currentConn := none },
              (match conn with
                | some c => [c]
                | none => []),
              writeStateFile (((i + 1) % stations.length : Nat) : Int) wr,
              { message := "Switched to next station", station := st.Name,
                index := (((i + 1) % stations.length : Nat) : Int) }) := by
  have hv : ValidIndex { currentIdx := (i : Int), stations := stations, currentConn := conn } := by
    refine ⟨by simp, ?_, hlen⟩
    simp only [goLen]; omega
  obtain ⟨st, hget, heq⟩ := nextLocked_of_valid _ hv
  have hcast : ((i : Int) + 1) % goLen stations = (((i + 1) % stations.length : Nat) : Int) := by
    simp only [goLen]; push_cast; rfl
  simp only [hcast] at hget heq
  refine ⟨st, by simpa using hget, ?_⟩
  simp only [createNextHandler, heq, nextRespond, saveCurrentIndex]

theorem nextSeq_of_nat (stations : List Station) (hlen : goLen stations < 2 ^ 63)
    (wrs : List WriteResult) :
    ∀ (conn : Option Conn) (i : Nat), i < stations.length →
      ∃ s1 rs, nextSeq wrs { currentIdx := (i : Int), stations := stations, currentConn := conn }
          = some (s1, rs) ∧
        s1.currentIdx = (((i + wrs.length) % stations.length : Nat) : Int) ∧
        s1.stations = stations ∧
        rs.map (fun r => (r.index, some r.station)) =
          (List.range wrs.length).map (fun j =>
            ((((i + j + 1) % stations.length : Nat) : Int),
             (stations.get? ((i + j + 1) % stations.length)).map Station.Name)) := by
  induction wrs with
  | nil =>
    intro conn i hi
    exact ⟨_, [], rfl, by simp [Nat.mod_eq_of_lt hi], rfl, rfl⟩
  | cons wr wrs ih =>
    intro conn i hi
    obtain ⟨st, hget, hh⟩ := createNextHandler_of_nat stations conn i wr hi hlen
    have hpos : 0 < stations.length := by omega
    obtain ⟨s1, rs, hseq, hidx, hst, hrs⟩ :=
      ih none ((i + 1) % stations.length) (Nat.mod_lt _ hpos)
    refine ⟨s1, { message := "Switched to next station", station := st.Name,
                  index := (((i + 1) % stations.length : Nat) : Int) } :: rs, ?_, ?_, hst, ?_⟩
    · simp only [nextSeq, hh, hseq]
    · rw [hidx]
      congr 1
      simp only [List.length_cons, Nat.mod_add_mod]
      congr 1
      omega
    · simp only [List.map_cons, List.length_cons, List.range_succ_eq_map, hrs, List.map_map,
        hget, Option.map_some']
      congr 1
      apply List.map_congr_left
      intro j _
      have : ((i + 1) % stations.length + j + 1) % stations.length
          = (i + (j + 1) + 1) % stations.length := by
        rw [Nat.add_assoc, Nat.mod_add_mod]
        congr 1
        omega
      simp only [Function.comp, this]

/-! ## Structure of the loop body -/

/-- Position of the loop inside an iteration, read off the first operation
left: what a non-empty suffix `op :: rest` of a loop body can be. -/
theorem startStreamer_suffix (c : Conn) (o : RunOutcome) (op : Op) (rest : List Op)
    (h : op :: rest <:+ startStreamer c o) :
    (op = Op.attach c ∧ (∀ c1, Op.attach c1 ∉ rest) ∧ Op.detach ∈ rest) ∨
    (op = Op.detach ∧ rest = [Op.connClose c]) ∨
    (op = Op.connClose c ∧ rest = []) ∨
    ((∀ c1, op ≠ Op.attach c1) ∧ op ≠ Op.detach ∧ (∀ c1, op ≠ Op.connClose c1) ∧
      (∀ c1, Op.attach c1 ∉ rest) ∧ Op.detach ∈ rest) := by
  cases o with
  | pipeFailed =>
    simp [startStreamer, List.suffix_cons_iff] at h
    rcases h with h | h | h | h | h <;> (obtain ⟨h1, h2⟩ := h; subst h1; subst h2; simp)
  | startFailed =>
    simp [startStreamer, List.suffix_cons_iff] at h
    rcases h with h | h | h | h | h | h | h <;>
      (obtain ⟨h1, h2⟩ := h; subst h1; subst h2; simp)
  | started copy closeOk wait =>
    simp [startStreamer, List.suffix_cons_iff] at h
    rcases h with h | h | h | h | h | h | h | h | h | h <;>
      (obtain ⟨h1, h2⟩ := h; subst h1; subst h2; simp)

/-! ## Invariant of the interleaving model -/

theorem step_accept_inv (w w1 : World) (r : AcceptResult) (hinv : Inv w)
    (hstep : step w (.accept r) = some w1) : Inv w1 := by
  obtain ⟨hv, hcl, hs⟩ := hinv
  simp only [step] at hstep
  split at hstep
  · rename_i hrun
    rw [hrun] at hs
    simp only at hs
    cases r with
    | conn o =>
      simp only [Option.some.injEq] at hstep
      subst hstep
      refine ⟨hv, ?_, ?_⟩
      · intro x hx
        exact Nat.lt_succ_of_lt (hcl x hx)
      · simp only [startStreamer, List.cons_append, List.nil_append]
        refine ⟨w.accepted, o, by omega, ?_, ?_, ?_, ?_⟩
        · simp [startStreamer]
        · intro _
          refine ⟨hs, ?_⟩
          intro k hk
          have := hcl _ hk
          simp at this
        · intro _; exact hs
        · intro c1 hc1
          rw [hs] at hc1
          cases hc1
    | listenerClosed =>
      simp only [Option.some.injEq] at hstep
      subst hstep
      exact ⟨hv, hcl, hs⟩
    | otherError =>
      simp only [Option.some.injEq] at hstep
      subst hstep
      refine ⟨hv, hcl, ?_⟩
      rw [hrun]
      exact hs
  · cases hstep

theorem applyOp_inert (op : Op) (w w1 : World) (h1 : ∀ c1, op ≠ Op.attach c1)
    (h2 : op ≠ Op.detach) (h3 : ∀ c1, op ≠ Op.connClose c1) (h : applyOp op w = some w1) :
    w1 = { w with trace := w.trace ++ [op] } := by
  cases op with
  | attach c => exact absurd rfl (h1 c)
  | detach => exact absurd rfl h2
  | connClose c => exact absurd rfl (h3 c)
  | selectStation =>
    simp only [applyOp] at h
    split at h
    · cases h
    · injection h with h; exact h.symm
  | stdoutPipe ok => injection h with h; exact h.symm
  | start ok => injection h with h; exact h.symm
  | copy r => injection h with h; exact h.symm
  | stdoutClose ok => injection h with h; exact h.symm
  | wait r => injection h with h; exact h.symm
  | logExit l => injection h with h; exact h.symm

theorem step_streamerOp_inv (w w1 : World) (hinv : Inv w)
    (hstep : step w .streamerOp = some w1) : Inv w1 := by
  obtain ⟨hv, hcl, hs⟩ := hinv
  simp only [step] at hstep
  split at hstep
  · rename_i op rest hrun
    rw [hrun] at hs
    obtain ⟨c, o, hc, hsuf, hA, hB, hC⟩ := hs
    have hsuf1 : rest <:+ startStreamer c o := (List.suffix_cons op rest).trans hsuf
    rcases startStreamer_suffix c o op rest hsuf with
      ⟨h1, h2, h3⟩ | ⟨h1, h2⟩ | ⟨h1, h2⟩ | ⟨h1, h2, h3, h4, h5⟩
    · subst h1
      simp only [applyOp, Option.some.injEq] at hstep
      subst hstep
      refine ⟨hv, hcl, ?_⟩
      cases rest with
      | nil => simp at h3
      | cons op1 rest1 =>
        refine ⟨c, o, hc, hsuf1, ?_, ?_, ?_⟩
        · rintro ⟨c1, hc1⟩
          exact absurd hc1 (h2 c1)
        · intro hd
          exact absurd h3 hd
        · intro c1 hc1
          have : c1 = c := by
            have : some c = some c1 := hc1
            injection this with this
            exact this.symm
          exact ⟨this, (hA ⟨c, by simp⟩).2⟩
    · subst h1
      subst h2
      simp only [applyOp, Option.some.injEq] at hstep
      subst hstep
      refine ⟨hv, hcl, ?_⟩
      refine ⟨c, o, hc, hsuf1, ?_, ?_, ?_⟩
      · rintro ⟨c1, hc1⟩
        simp at hc1
      · intro _; rfl
      · intro c1 hc1
        cases hc1
    · subst h1
      subst h2
      simp only [applyOp, Option.some.injEq] at hstep
      subst hstep
      have hnone : w.store.currentConn = none := hB (by simp)
      refine ⟨hv, ?_, hnone⟩
      intro x hx
      have hx1 : x ∈ w.closeCalls ++ [(Closer.streamer, c)] := hx
      rcases List.mem_append.mp hx1 with hx2 | hx2
      · exact hcl x hx2
      · simp only [List.mem_singleton] at hx2
        subst hx2
        exact hc
    · split at hstep
      · cases hstep
      · rename_i w2 happ
        have hw2 := applyOp_inert op w w2 h1 h2 h3 happ
        subst hw2
        simp only [Option.some.injEq] at hstep
        subst hstep
        refine ⟨hv, hcl, ?_⟩
        cases rest with
        | nil => simp at h5
        | cons op1 rest1 =>
          refine ⟨c, o, hc, hsuf1, ?_, ?_, ?_⟩
          · rintro ⟨c1, hc1⟩
            exact absurd hc1 (h4 c1)
          · intro hd
            exact absurd h5 hd
          · exact hC
  · cases hstep

theorem nextSection_start_inv (w w1 : World) (pc1 : NextPc) (wr : WriteResult) (hinv : Inv w)
    (h : nextSection .start wr w = some (pc1, w1)) : Inv w1 := by
  obtain ⟨hv, hcl, hs⟩ := hinv
  simp only [nextSection] at h
  split at h
  · cases h
  · rename_i u hu
    have hvu := (nextLocked_valid w.store hv u hu).1
    obtain ⟨st, _, heq⟩ := nextLocked_of_valid w.store hv
    rw [heq] at hu
    injection hu with hu
    subst hu
    simp only [Option.some.injEq, Prod.mk.injEq] at h
    obtain ⟨_, h⟩ := h
    subst h
    refine ⟨hvu, ?_⟩
    cases hconn : w.store.currentConn with
    | none =>
      refine ⟨?_, ?_⟩
      · intro x hx
        have hx1 : x ∈ w.closeCalls ++ [] := hx
        rw [List.append_nil] at hx1
        exact hcl x hx1
      · cases hrun : w.streamer with
        | returned => rfl
        | running ops =>
          cases ops with
          | nil => rfl
          | cons op rest =>
            rw [hrun] at hs
            obtain ⟨c, o, hc, hsuf, hA, hB, hC⟩ := hs
            refine ⟨c, o, hc, hsuf, ?_, ?_, ?_⟩
            · intro hat
              refine ⟨rfl, ?_⟩
              intro k hk
              have hk1 : (k, c) ∈ w.closeCalls ++ [] := hk
              rw [List.append_nil] at hk1
              exact (hA hat).2 k hk1
            · intro _; rfl
            · intro c1 hc1
              cases hc1
    | some c0 =>
      cases hrun : w.streamer with
      | returned =>
        rw [hrun] at hs
        rw [hconn] at hs
        cases hs
      | running ops =>
        cases ops with
        | nil =>
          rw [hrun] at hs
          rw [hconn] at hs
          cases hs
        | cons op rest =>
          rw [hrun] at hs
          obtain ⟨c, o, hc, hsuf, hA, hB, hC⟩ := hs
          have hc0 : c0 = c := (hC c0 hconn).1
          subst hc0
          refine ⟨?_, ?_⟩
          · intro x hx
            have hx1 : x ∈ w.closeCalls ++ [(Closer.handler, c0)] := hx
            rcases List.mem_append.mp hx1 with hx2 | hx2
            · exact hcl x hx2
            · simp only [List.mem_singleton] at hx2
              subst hx2
              exact hc
          · refine ⟨c0, o, hc, hsuf, ?_, ?_, ?_⟩
            · intro hat
              have := (hA hat).1
              rw [hconn] at this
              cases this
            · intro _; rfl
            · intro c1 hc1
              cases hc1

theorem step_nextStep_inv (w w1 : World) (i : Nat) (wr : WriteResult) (hinv : Inv w)
    (hstep : step w (.nextStep i wr) = some w1) : Inv w1 := by
  simp only [step] at hstep
  split at hstep
  · cases hstep
  · rename_i pc _
    split at hstep
    · cases hstep
    · rename_i pc1 w2 hsec
      simp only [Option.some.injEq] at hstep
      subst hstep
      have hw2 : Inv w2 := by
        cases pc with
        | start => exact nextSection_start_inv w w2 pc1 wr hinv hsec
        | updated n =>
          simp only [nextSection, Option.some.injEq, Prod.mk.injEq] at hsec
          rw [← hsec.2]; exact hinv
        | saving n ix =>
          simp only [nextSection, Option.some.injEq, Prod.mk.injEq] at hsec
          rw [← hsec.2]; exact hinv
        | saved n =>
          simp only [nextSection, Option.some.injEq, Prod.mk.injEq] at hsec
          rw [← hsec.2]; exact hinv
        | done r => simp only [nextSection] at hsec; cases hsec
      exact hw2

/-- Every step of the server preserves the invariant. -/
theorem step_inv (w w1 : World) (a : Action) (hinv : Inv w) (hstep : step w a = some w1) :
    Inv w1 := by
  cases a with
  | accept r => exact step_accept_inv w w1 r hinv hstep
  | streamerOp => exact step_streamerOp_inv w w1 hinv hstep
  | nextArrive =>
    simp only [step, Option.some.injEq] at hstep
    subst hstep
    exact hinv
  | nextStep i wr => exact step_nextStep_inv w w1 i wr hinv hstep
  | current =>
    simp only [step] at hstep
    split at hstep
    · cases hstep
    · injection hstep with hstep; subst hstep; exact hinv
  | nowPlaying net =>
    simp only [step] at hstep
    split at hstep
    · cases hstep
    · injection hstep with hstep; subst hstep; exact hinv

theorem run_inv (acts : List Action) :
    ∀ (w w1 : World), Inv w → run w acts = some w1 → Inv w1 := by
  induction acts with
  | nil =>
    intro w w1 hinv h
    injection h with h
    subst h
    exact hinv
  | cons a acts ih =>
    intro w w1 hinv h
    simp only [run] at h
    split at h
    · cases h
    · rename_i w2 hstep
      exact ih w2 w1 (step_inv w w2 a hinv hstep) h

theorem main_inv (decoded : Option (List Station)) (file : Option GoString)
    (listenOk : Bool) (w0 : World) (hlen : ∀ sts, decoded = some sts → goLen sts < 2 ^ 63)
    (h : main decoded file listenOk = some w0) : Inv w0 := by
  simp only [main] at h
  split at h
  · cases h
  · rename_i stations hcfg
    have hdec : decoded = some stations ∧ stations.length ≠ 0 := by
      unfold loadConfig at hcfg
      split at hcfg
      · cases hcfg
      · split at hcfg
        · cases hcfg
        · rename_i hne
          injection hcfg with hcfg
          subst hcfg
          exact ⟨rfl, hne⟩
    split at h
    · cases h
    · rename_i st hidx
      split at h
      · injection h with h
        subst h
        have hrange : 0 ≤ loadCurrentIndex file (goLen stations) ∧
            loadCurrentIndex file (goLen stations) < goLen stations := by
          unfold goIndex at hidx
          split at hidx
          · rename_i hr; exact hr
          · cases hidx
        refine ⟨⟨hrange.1, hrange.2, hlen stations hdec.1⟩, ?_, rfl⟩
        intro x hx
        cases hx
      · cases h

theorem reachable_inv (w : World) (h : Reachable w) : Inv w := by
  obtain ⟨decoded, file, listenOk, w0, acts, hlen, hinit, hrun⟩ := h
  exact run_inv acts w0 w (main_inv decoded file listenOk w0 hlen hinit) hrun

/-! ## The trace of the data-plane loop -/

theorem applyOp_frame (op : Op) (w w1 : World) (h : applyOp op w = some w1) :
    w1.trace = w.trace ++ [op] ∧ w1.streamer = w.streamer ∧ w1.accepted = w.accepted ∧
      w1.closeCalls = w.closeCalls ++ opCloses op := by
  cases op with
  | attach c => injection h with h; subst h; simp [opCloses]
  | detach => injection h with h; subst h; simp [opCloses]
  | connClose c => injection h with h; subst h; simp [opCloses]
  | selectStation =>
    simp only [applyOp] at h
    split at h
    · cases h
    · injection h with h; subst h; simp [opCloses]
  | stdoutPipe ok => injection h with h; subst h; simp [opCloses]
  | start ok => injection h with h; subst h; simp [opCloses]
  | copy r => injection h with h; subst h; simp [opCloses]
  | stdoutClose ok => injection h with h; subst h; simp [opCloses]
  | wait r => injection h with h; subst h; simp [opCloses]
  | logExit l => injection h with h; subst h; simp [opCloses]

theorem nextSection_frame (pc pc1 : NextPc) (wr : WriteResult) (w w1 : World)
    (h : nextSection pc wr w = some (pc1, w1)) :
    w1.trace = w.trace ∧ w1.streamer = w.streamer ∧ w1.accepted = w.accepted ∧
      ∃ l, w1.closeCalls = w.closeCalls ++ l := by
  cases pc with
  | start =>
    simp only [nextSection] at h
    split at h
    · cases h
    · simp only [Option.some.injEq, Prod.mk.injEq] at h
      obtain ⟨_, h⟩ := h
      subst h
      exact ⟨rfl, rfl, rfl, _, rfl⟩
  | updated n =>
    simp only [nextSection, Option.some.injEq, Prod.mk.injEq] at h
    obtain ⟨_, h⟩ := h
    subst h
    exact ⟨rfl, rfl, rfl, [], by simp⟩
  | saving n ix =>
    simp only [nextSection, Option.some.injEq, Prod.mk.injEq] at h
    obtain ⟨_, h⟩ := h
    subst h
    exact ⟨rfl, rfl, rfl, [], by simp⟩
  | saved n =>
    simp only [nextSection, Option.some.injEq, Prod.mk.injEq] at h
    obtain ⟨_, h⟩ := h
    subst h
    exact ⟨rfl, rfl, rfl, [], by simp⟩
  | done r => simp only [nextSection] at h; cases h

/-- What a step does to the data-plane loop: an accept happens only at
`running []` and performs no operation; `streamerOp` performs the first
operation left; the handlers do not touch the loop. -/
theorem step_frame (w w1 : World) (a : Action) (h : step w a = some w1) :
    (∃ l, w1.closeCalls = w.closeCalls ++ l) ∧
    ((w.streamer = .running [] ∧ w1.trace = w.trace) ∨
     (∃ op rest, w.streamer = .running (op :: rest) ∧ w1.streamer = .running rest ∧
        w1.trace = w.trace ++ [op] ∧ w1.closeCalls = w.closeCalls ++ opCloses op) ∨
     (w1.streamer = w.streamer ∧ w1.trace = w.trace)) := by
  cases a with
  | accept r =>
    simp only [step] at h
    split at h
    · rename_i hrun
      refine ⟨⟨[], ?_⟩, Or.inl ⟨hrun, ?_⟩⟩
      · cases r <;> (injection h with h; subst h; simp)
      · cases r <;> (injection h with h; subst h; rfl)
    · cases h
  | streamerOp =>
    simp only [step] at h
    split at h
    · rename_i op rest hrun
      split at h
      · cases h
      · rename_i w2 happ
        injection h with h
        subst h
        obtain ⟨h1, _, _, h4⟩ := applyOp_frame op w w2 happ
        exact ⟨⟨_, h4⟩, Or.inr (Or.inl ⟨op, rest, hrun, rfl, h1, h4⟩)⟩
    · cases h
  | nextArrive =>
    injection h with h
    subst h
    exact ⟨⟨[], by simp⟩, Or.inr (Or.inr ⟨rfl, rfl⟩)⟩
  | nextStep i wr =>
    simp only [step] at h
    split at h
    · cases h
    · split at h
      · cases h
      · rename_i pc1 w2 hsec
        injection h with h
        subst h
        obtain ⟨h1, h2, _, h4⟩ := nextSection_frame _ pc1 wr w w2 hsec
        exact ⟨h4, Or.inr (Or.inr ⟨h2, h1⟩)⟩
  | current =>
    simp only [step] at h
    split at h
    · cases h
    · injection h with h; subst h
      exact ⟨⟨[], by simp⟩, Or.inr (Or.inr ⟨rfl, rfl⟩)⟩
  | nowPlaying net =>
    simp only [step] at h
    split at h
    · cases h
    · injection h with h; subst h
      exact ⟨⟨[], by simp⟩, Or.inr (Or.inr ⟨rfl, rfl⟩)⟩

theorem step_progress (t0 : List Op) (c : Conn) (body : List Op) (w w1 : World) (a : Action)
    (hp : IterationProgress t0 c body w) (h : step w a = some w1) :
    IterationProgress t0 c body w1 := by
  obtain ⟨⟨l, hl⟩, hf⟩ := step_frame w w1 a h
  rcases hp with ⟨t, op, rest, hrun, htr, hbody, hclose⟩ | ⟨later, htr, hclose⟩
  · rcases hf with ⟨hrun1, _⟩ | ⟨op1, rest1, hrun1, hrun2, htr1, hcl1⟩ | ⟨hrun1, htr1⟩
    · rw [hrun] at hrun1
      cases hrun1
    · rw [hrun] at hrun1
      injection hrun1 with hrun1
      injection hrun1 with ho hr
      subst ho; subst hr
      have hclose1 : Op.connClose c ∈ t ++ [op] → (Closer.streamer, c) ∈ w1.closeCalls := by
        intro hmem
        rw [hcl1]
        rcases List.mem_append.mp hmem with hm | hm
        · exact List.mem_append_left _ (hclose hm)
        · simp only [List.mem_singleton] at hm
          subst hm
          simp [opCloses]
      cases rest with
      | nil =>
        right
        refine ⟨[], ?_, ?_⟩
        · rw [htr1, htr, ← hbody]; simp
        · intro hmem
          rw [← hbody] at hmem
          exact hclose1 hmem
      | cons op2 rest2 =>
        left
        exact ⟨t ++ [op], op2, rest2, hrun2, by rw [htr1, htr]; simp, by rw [← hbody]; simp,
          hclose1⟩
    · left
      exact ⟨t, op, rest, by rw [hrun1, hrun], by rw [htr1, htr], hbody,
        fun hm => by rw [hl]; exact List.mem_append_left _ (hclose hm)⟩
  · right
    rcases hf with ⟨_, htr1⟩ | ⟨op1, rest1, _, _, htr1, _⟩ | ⟨_, htr1⟩
    · exact ⟨later, by rw [htr1, htr], fun hm => by rw [hl]; exact List.mem_append_left _ (hclose hm)⟩
    · exact ⟨later ++ [op1], by rw [htr1, htr]; simp,
        fun hm => by rw [hl]; exact List.mem_append_left _ (hclose hm)⟩
    · exact ⟨later, by rw [htr1, htr], fun hm => by rw [hl]; exact List.mem_append_left _ (hclose hm)⟩

theorem run_progress (t0 : List Op) (c : Conn) (body : List Op) (acts : List Action) :
    ∀ (w w1 : World), IterationProgress t0 c body w → run w acts = some w1 →
      IterationProgress t0 c body w1 := by
  induction acts with
  | nil =>
    intro w w1 hp h
    injection h with h
    subst h
    exact hp
  | cons a acts ih =>
    intro w w1 hp h
    simp only [run] at h
    split at h
    · cases h
    · rename_i w2 hstep
      exact ih w2 w1 (step_progress t0 c body w w2 a hp hstep) h

theorem accept_conn_progress (w w1 : World) (o : RunOutcome)
    (hacc : step w (.accept (.conn o)) = some w1) :
    w.streamer = .running [] ∧ w1.streamer = .running (startStreamer w.accepted o) ∧
      w1.store = w.store ∧ w1.trace = w.trace ∧
      IterationProgress w.trace w.accepted (startStreamer w.accepted o) w1 := by
  simp only [step] at hacc
  split at hacc
  · rename_i hrun
    injection hacc with hacc
    subst hacc
    refine ⟨hrun, rfl, rfl, rfl, Or.inl ⟨[], Op.attach w.accepted, ?_⟩⟩
    refine ⟨_, rfl, by simp, rfl, ?_⟩
    intro hm
    cases hm
  · cases hacc

/-- Left alone, the loop performs the operations left in its iteration one
after the other and is back at `Accept`. -/
theorem run_streamerOps (rest : List Op) :
    ∀ (w : World), ValidIndex w.store → w.streamer = .running rest →
      ∃ w2, run w (List.replicate rest.length Action.streamerOp) = some w2 ∧
        w2.streamer = .running [] ∧ w2.trace = w.trace ++ rest := by
  induction rest with
  | nil =>
    intro w _ hrun
    exact ⟨w, rfl, hrun, by simp⟩
  | cons op rest ih =>
    intro w hv hrun
    have happ : ∃ w1, applyOp op w = some w1 ∧ ValidIndex w1.store := by
      cases op with
      | selectStation =>
        obtain ⟨st, hst⟩ := (getCurrentStation_of_valid w.store hv).2
        exact ⟨{ w with trace := w.trace ++ [Op.selectStation] },
          by simp only [applyOp, hst], hv⟩
      | attach c => exact ⟨_, rfl, hv⟩
      | detach => exact ⟨_, rfl, hv⟩
      | connClose c => exact ⟨_, rfl, hv⟩
      | stdoutPipe ok => exact ⟨_, rfl, hv⟩
      | start ok => exact ⟨_, rfl, hv⟩
      | copy r => exact ⟨_, rfl, hv⟩
      | stdoutClose ok => exact ⟨_, rfl, hv⟩
      | wait r => exact ⟨_, rfl, hv⟩
      | logExit l => exact ⟨_, rfl, hv⟩
    obtain ⟨w1, hw1, hv1⟩ := happ
    obtain ⟨htr, _, _, _⟩ := applyOp_frame op w w1 hw1
    obtain ⟨w2, hrun2, hs2, htr2⟩ := ih { w1 with streamer := .running rest } hv1 rfl
    refine ⟨w2, ?_, hs2, ?_⟩
    · simp only [List.length_cons, List.replicate_succ, run, step, hrun, hw1]
      exact hrun2
    · rw [htr2]
      show w1.trace ++ rest = w.trace ++ op :: rest
      rw [htr]
      simp

/-! ## Claims -/

/-- C1: for a non-empty catalog of `N` stations (a Go slice, so `N < 2 ^ 63`), a
start index `i < N` and `k` sequential `/next` requests (one per write result in
`wrs`), the handlers all return, the final `currentIdx` is `(i + k) mod N`,
`getCurrentStation` returns the station at that index, and the `j`-th response
carries the index `(i + j + 1) mod N` and the name of the station at that
index; with `N = 3`, `i = 1` and `k = 3` the indices reported are `2, 0, 1`. -/
theorem next_advances_cyclically (stations : List Station) (conn : Option Conn) (i : Nat)
    (wrs : List WriteResult) (hi : i < stations.length) (hlen : goLen stations < 2 ^ 63) :
    ∃ s1 rs,
      nextSeq wrs { currentIdx := (i : Int), stations := stations, currentConn := conn }
        = some (s1, rs) ∧
      s1.currentIdx = (((i + wrs.length) % stations.length : Nat) : Int) ∧
      (∃ st, stations.get? ((i + wrs.length) % stations.length) = some st ∧
        getCurrentStation s1 = some st) ∧
      rs.map (fun r => (r.index, some r.station)) =
        (List.range wrs.length).map (fun j =>
          ((((i + j + 1) % stations.length : Nat) : Int),
           (stations.get? ((i + j + 1) % stations.length)).map Station.Name)) ∧
      (stations.length = 3 → i = 1 → wrs.length = 3 → rs.map (fun r => r.index) = [2, 0, 1]) := by
  obtain ⟨s1, rs, hseq, hidx, hst, hrs⟩ := nextSeq_of_nat stations hlen wrs conn i hi
  have hpos : 0 < stations.length := by omega
  have hv : ValidIndex s1 := by
    refine ⟨by rw [hidx]; exact Int.natCast_nonneg _, ?_, by rw [hst]; exact hlen⟩
    rw [hidx, hst]
    simp only [goLen]
    exact_mod_cast Nat.mod_lt _ hpos
  obtain ⟨hget, st, hcur⟩ := getCurrentStation_of_valid s1 hv
  refine ⟨s1, rs, hseq, hidx, ⟨st, ?_, hcur⟩, hrs, ?_⟩
  · rw [hcur, hst, hidx] at hget
    simpa using hget.symm
  · intro h3 h1 hk
    have hmap : rs.map (fun r => r.index) =
        (rs.map (fun r => (r.index, some r.station))).map Prod.fst := by
      simp [List.map_map, Function.comp]
    rw [hmap, hrs, hk, h3, h1]
    rfl

/-- Witness of C1: three stations, start index 1, three requests. -/
theorem next_advances_cyclically_witness :
    (nextSeq [WriteResult.ok, WriteResult.ok, WriteResult.ok]
      { currentIdx := ((1 : Nat) : Int), stations := demoStations, currentConn := some 0 }).map
        (fun p => (p.1.currentIdx, p.2.map (fun r => r.index)))
      = some (1, [2, 0, 1]) := by
  obtain ⟨s1, rs, h1, h2, _, _, h5⟩ :=
    next_advances_cyclically demoStations (some 0) 1
      [WriteResult.ok, WriteResult.ok, WriteResult.ok] (by decide) (by decide)
  rw [h1]
  simp only [Option.map_some', h2, h5 rfl rfl rfl]
  rfl

/-- C3: for `maxStations ≥ 1` and every result of reading the state file,
`loadCurrentIndex` returns 0 when the file cannot be read, when `strconv.Atoi`
rejects its content, when the parsed integer is negative or when it is at
least `maxStations`; it returns the parsed integer otherwise; the result is
always in `[0, maxStations)`. -/
theorem loadCurrentIndex_total (maxStations : Int) (file : Option GoString)
    (hmax : 1 ≤ maxStations) :
    (0 ≤ loadCurrentIndex file maxStations ∧ loadCurrentIndex file maxStations < maxStations) ∧
    (file = none → loadCurrentIndex file maxStations = 0) ∧
    (∀ data, file = some data → Atoi data = none → loadCurrentIndex file maxStations = 0) ∧
    (∀ data index, file = some data → Atoi data = some index → index < 0 →
      loadCurrentIndex file maxStations = 0) ∧
    (∀ data index, file = some data → Atoi data = some index → index ≥ maxStations →
      loadCurrentIndex file maxStations = 0) ∧
    (∀ data index, file = some data → Atoi data = some index → 0 ≤ index →
      index < maxStations → loadCurrentIndex file maxStations = index) := by
  refine ⟨?_, ?_, ?_, ?_, ?_, ?_⟩
  · unfold loadCurrentIndex
    split
    · omega
    · split
      · omega
      · split <;> omega
  · intro h; subst h; rfl
  · intro data h hp; subst h; simp only [loadCurrentIndex, hp]
  · intro data index h hp hneg; subst h
    simp only [loadCurrentIndex, hp, hneg, true_or, if_true]
  · intro data index h hp hge; subst h
    simp only [loadCurrentIndex, hp, hge, or_true, if_true]
  · intro data index h hp h0 h1; subst h
    have : ¬ (index < 0 ∨ index ≥ maxStations) := by omega
    simp only [loadCurrentIndex, hp, this, if_false]

/-- Witness of C3: three stations; the files `"2"`, `"7"`, `"-1"`, `"1\n"` and a
missing file. -/
theorem loadCurrentIndex_total_witness :
    (1 : Int) ≤ 3 ∧
    loadCurrentIndex (some [50]) 3 = 2 ∧ loadCurrentIndex (some [55]) 3 = 0 ∧
    loadCurrentIndex (some [45, 49]) 3 = 0 ∧ loadCurrentIndex (some [49, 10]) 3 = 0 ∧
    loadCurrentIndex none 3 = 0 :=
  ⟨by decide,
   (loadCurrentIndex_total 3 (some [50]) (by decide)).2.2.2.2.2 [50] 2 rfl (by decide)
     (by decide) (by decide),
   (loadCurrentIndex_total 3 (some [55]) (by decide)).2.2.2.2.1 [55] 7 rfl (by decide)
     (by decide),
   (loadCurrentIndex_total 3 (some [45, 49]) (by decide)).2.2.2.1 [45, 49] (-1) rfl
     (by decide) (by decide),
   (loadCurrentIndex_total 3 (some [49, 10]) (by decide)).2.2.1 [49, 10] rfl (by decide),
   (loadCurrentIndex_total 3 none (by decide)).2.1 rfl⟩

/-- C6: on a response with status 200 whose body decodes, `fetchMetadata`
returns the first entry of the `nowplaying` list and no error when the list is
not empty, and the song `Unknown`/`Unknown` with an error when it is empty; it
does not panic (no index into an empty list). -/
theorem fetchMetadata_decoded (song : SongInfo) (rest : List SongInfo) :
    fetchMetadata (.response 200 (some { NowPlaying := song :: rest })) = some (song, none) ∧
    fetchMetadata (.response 200 (some { NowPlaying := [] })) =
      some ({ Timestamp := "N/A", Artist := "Unknown", Title := "Unknown" },
            some "now playing array is empty") ∧
    (∀ data, ∃ r, fetchMetadata (.response 200 (some data)) = some r) := by
  refine ⟨?_, rfl, fun data => fetchMetadata_isSome _⟩
  simp [fetchMetadata, goIndex, goLen]

/-- C7: in a store where `getCurrentStation` returns, the `/nowplaying` handler
answers; it answers 500 with `text/plain` and a text body exactly when
`fetchMetadata` returned an error, and when `fetchMetadata` returned no error
it answers 200 with the JSON object of the two members `artist` and `title` of
the song. -/
theorem nowPlaying_response (s : ServerState) (net : String → HttpOutcome) (current : Station)
    (hcur : getCurrentStation s = some current) :
    ∃ song err resp,
      fetchMetadata (net current.MetadataURL) = some (song, err) ∧
      createNowPlayingHandler s net = some resp ∧
      ((resp.status = 500 ∧ resp.contentType = "text/plain" ∧ ∃ t, resp.body = Body.text t)
        ↔ err ≠ none) ∧
      (resp.status = 500 → ∀ members, resp.body ≠ Body.json members) ∧
      (err = none →
        resp = { status := 200, contentType := "application/json",
                 body := Body.json [("artist", song.Artist), ("title", song.Title)] }) := by
  obtain ⟨⟨song, err⟩, hf⟩ := fetchMetadata_isSome (net current.MetadataURL)
  cases err with
  | none =>
    refine ⟨song, none,
      { status := 200, contentType := "application/json",
        body := Body.json [("artist", song.Artist), ("title", song.Title)] },
      hf, ?_, ?_, ?_, fun _ => rfl⟩
    · simp only [createNowPlayingHandler, hcur, hf, marshalNowPlaying]
      rfl
    · simp
    · intro h; simp at h
  | some e =>
    refine ⟨song, some e,
      { status := 500, contentType := "text/plain",
        body := Body.text "Error - Error fetching song data" },
      hf, ?_, ?_, ?_, ?_⟩
    · simp only [createNowPlayingHandler, hcur, hf]
      rfl
    · simp
    · intro _ members h; cases h
    · intro h; cases h

/-- Witness of C7: the metadata server answers 500 for the current station. -/
theorem nowPlaying_response_witness :
    (createNowPlayingHandler { currentIdx := 1, stations := demoStations, currentConn := none }
      (fun _ => HttpOutcome.response 500 none)).map (fun r => (r.status, r.contentType))
      = some (500, "text/plain") := by
  obtain ⟨song, err, resp, h1, h2, h3, _, _⟩ :=
    nowPlaying_response { currentIdx := 1, stations := demoStations, currentConn := none }
      (fun _ => HttpOutcome.response 500 none) ⟨"B", "b", "mb"⟩ (by decide)
  have herr : err ≠ none := by
    intro h
    subst h
    have : fetchMetadata (HttpOutcome.response 500 none) = some (song, none) := h1
    simp [fetchMetadata] at this
  obtain ⟨hs, hc, _⟩ := h3.mpr herr
  rw [h2]
  simp only [Option.map_some', hs, hc]

/-- C10: for a catalog of `N` stations (`N` a Go `int`, so `N < 2 ^ 63`) and
an index `0 ≤ i < N` (so `N ≥ 1`), `saveCurrentIndex` in a store with
`currentIdx = i` and a successful write leaves the state file `Itoa i`, and
`loadCurrentIndex N` on that file returns `i`; so after a `/next` request
handled alone in a store `t` with a valid index and a successful write, the
state file holds the new index, `loadCurrentIndex` returns it and a start of
`main` with the same catalog begins at it. -/
theorem save_load_roundtrip (N i : Int) (s t : ServerState) (hN63 : N < 2 ^ 63)
    (h0 : 0 ≤ i) (h1 : i < N) (hs : s.currentIdx = i) (ht : ValidIndex t) :
    saveCurrentIndex s .ok = some (Itoa i) ∧
    loadCurrentIndex (saveCurrentIndex s .ok) N = i ∧
    ∃ t1 closed file r,
      createNextHandler t .ok = some (t1, closed, file, r) ∧
      file = some (Itoa t1.currentIdx) ∧
      loadCurrentIndex file (goLen t.stations) = t1.currentIdx ∧
      (main (some t.stations) file true).map (fun w0 => w0.store.currentIdx)
        = some t1.currentIdx := by
  have hsave : saveCurrentIndex s .ok = some (Itoa i) := by
    simp only [saveCurrentIndex, writeStateFile, hs]
  refine ⟨hsave, by rw [hsave]; exact loadCurrentIndex_Itoa N i hN63 h0 h1, ?_⟩
  obtain ⟨st, hget, heq⟩ := createNextHandler_of_valid t .ok ht
  obtain ⟨hs0, hs1, hs2⟩ := ht
  have hpos : 0 < goLen t.stations := by omega
  have hm0 : 0 ≤ (t.currentIdx + 1) % goLen t.stations := Int.emod_nonneg _ (by omega)
  have hm1 : (t.currentIdx + 1) % goLen t.stations < goLen t.stations :=
    Int.emod_lt_of_pos _ hpos
  have hload := loadCurrentIndex_Itoa (goLen t.stations) _ hs2 hm0 hm1
  obtain ⟨st1, hst1, _⟩ := goIndex_isSome t.stations _ hm0 hm1
  have hne : ¬ t.stations.length = 0 := by unfold goLen at hpos; omega
  refine ⟨_, _, _, _, heq, rfl, hload, ?_⟩
  simp only [main, loadConfig, hne, if_false, writeStateFile, hload, hst1, if_true,
    Option.map_some']

/-- Witness of C10: three stations, index 2 saved and read back; a `/next`
request at index 1. -/
theorem save_load_roundtrip_witness :
    saveCurrentIndex { currentIdx := 2, stations := demoStations, currentConn := none } .ok
      = some [50] ∧
    loadCurrentIndex
      (saveCurrentIndex { currentIdx := 2, stations := demoStations, currentConn := none } .ok) 3
      = 2 :=
  ⟨(save_load_roundtrip 3 2
      { currentIdx := 2, stations := demoStations, currentConn := none }
      { currentIdx := 1, stations := demoStations, currentConn := none }
      (by decide) (by decide) (by decide) rfl ⟨by decide, by decide, by decide⟩).1,
   (save_load_roundtrip 3 2
      { currentIdx := 2, stations := demoStations, currentConn := none }
      { currentIdx := 1, stations := demoStations, currentConn := none }
      (by decide) (by decide) (by decide) rfl ⟨by decide, by decide, by decide⟩).2.1⟩

theorem demoInit_reachable : Reachable demoInit :=
  ⟨some demoStations, some [49], true, demoInit, [],
    by intro sts h; injection h with h; subst h; decide, rfl, rfl⟩

theorem demoSwitched_reachable : Reachable demoSwitched :=
  ⟨some demoStations, some [49], true, demoInit,
    Action.accept (.conn demoOutcome) :: demoSwitchActs,
    by intro sts h; injection h with h; subst h; decide, rfl, rfl⟩

/-- C2: in every state reachable from a start of `main` (catalog accepted by
`loadConfig`, index from `loadCurrentIndex`) by steps of the `/next`,
`/current` and `/nowplaying` handlers and of the data-plane loop,
`0 ≤ currentIdx < len(stations)`, and the indexings `stations[currentIdx]` of
the next and current handlers do not panic. -/
theorem currentIdx_always_valid (w : World) (hw : Reachable w) :
    0 ≤ w.store.currentIdx ∧ w.store.currentIdx < goLen w.store.stations ∧
    (∃ st, goIndex w.store.stations w.store.currentIdx = some st) ∧
    (∃ u, nextLocked w.store = some u ∧
      ∃ st, goIndex u.state.stations u.state.currentIdx = some st) ∧
    (∃ r, createCurrentHandler w.store = some r) := by
  have hv := (reachable_inv w hw).1
  obtain ⟨st, hst, _⟩ := goIndex_isSome w.store.stations _ hv.1 hv.2.1
  obtain ⟨st1, _, hnext⟩ := nextLocked_of_valid w.store hv
  have hvu := (nextLocked_valid w.store hv _ hnext).1
  obtain ⟨st2, hst2, _⟩ := goIndex_isSome _ _ hvu.1 hvu.2.1
  obtain ⟨st3, _, hcur⟩ := createCurrentHandler_of_valid w.store hv
  exact ⟨hv.1, hv.2.1, ⟨st, hst⟩, ⟨_, hnext, st2, hst2⟩, ⟨_, hcur⟩⟩

/-- Witness of C2: the state after an accept, an attach and a station switch. -/
theorem currentIdx_always_valid_witness :
    Reachable demoSwitched ∧
    0 ≤ demoSwitched.store.currentIdx ∧
    demoSwitched.store.currentIdx < goLen demoSwitched.store.stations :=
  ⟨demoSwitched_reachable,
   (currentIdx_always_valid demoSwitched demoSwitched_reachable).1,
   (currentIdx_always_valid demoSwitched demoSwitched_reachable).2.1⟩

/-- C4: the `/next` handler, run in a store with a valid index, returns with
`currentConn` empty and has called `Close` on the connection the store held;
in the interleaving model its locked section does so in one step; and in every
reachable state (each is a state in which the lock is free) the connection
held by the store, if any, has never been closed by the program. -/
theorem store_never_holds_closed_conn (s : ServerState) (wr : WriteResult) (w : World)
    (hs : ValidIndex s) (hw : Reachable w) :
    (∃ s1 closed file r, createNextHandler s wr = some (s1, closed, file, r) ∧
      s1.currentConn = none ∧ ∀ c, s.currentConn = some c → c ∈ closed) ∧
    (∀ i w1, w.nextReqs.get? i = some NextPc.start → step w (.nextStep i wr) = some w1 →
      w1.store.currentConn = none ∧
      ∀ c, w.store.currentConn = some c → (Closer.handler, c) ∈ w1.closeCalls) ∧
    (∀ c, w.store.currentConn = some c → ∀ k, (k, c) ∉ w.closeCalls) := by
  refine ⟨?_, ?_, ?_⟩
  · obtain ⟨st, _, heq⟩ := createNextHandler_of_valid s wr hs
    refine ⟨_, _, _, _, heq, rfl, ?_⟩
    intro c hc
    rw [hc]
    simp
  · intro i w1 hi hstep
    have hv := (reachable_inv w hw).1
    obtain ⟨st, _, heq⟩ := nextLocked_of_valid w.store hv
    simp only [step, hi, nextSection, heq, Option.some.injEq] at hstep
    subst hstep
    refine ⟨rfl, ?_⟩
    intro c hc
    show (Closer.handler, c) ∈ w.closeCalls ++ List.map (fun c => (Closer.handler, c))
      (match w.store.currentConn with
        | some c => [c]
        | none => [])
    rw [hc]
    simp
  · intro c hc
    obtain ⟨_, _, hsi⟩ := reachable_inv w hw
    cases hrun : w.streamer with
    | returned =>
      rw [hrun] at hsi
      rw [hc] at hsi
      cases hsi
    | running ops =>
      cases ops with
      | nil =>
        rw [hrun] at hsi
        rw [hc] at hsi
        cases hsi
      | cons op rest =>
        rw [hrun] at hsi
        obtain ⟨c0, o, _, _, _, _, hC⟩ := hsi
        obtain ⟨h1, h2⟩ := hC c hc
        subst h1
        exact h2

theorem demoAttached_reachable : Reachable demoAttached :=
  ⟨some demoStations, some [49], true, demoInit,
    [Action.accept (.conn demoOutcome), .streamerOp, .nextArrive],
    by intro sts h; injection h with h; subst h; decide, rfl, rfl⟩

/-- Witness of C4: a connection is attached when the `/next` request runs. -/
theorem store_never_holds_closed_conn_witness :
    ValidIndex demoAttached.store ∧ Reachable demoAttached ∧
    (∃ s1 closed file r, createNextHandler demoAttached.store .ok = some (s1, closed, file, r) ∧
      s1.currentConn = none ∧ ∀ c, demoAttached.store.currentConn = some c → c ∈ closed) ∧
    (∀ c, demoAttached.store.currentConn = some c → ∀ k, (k, c) ∉ demoAttached.closeCalls) :=
  ⟨⟨by decide, by decide, by decide⟩, demoAttached_reachable,
   (store_never_holds_closed_conn demoAttached.store .ok demoAttached
     ⟨by decide, by decide, by decide⟩ demoAttached_reachable).1,
   (store_never_holds_closed_conn demoAttached.store .ok demoAttached
     ⟨by decide, by decide, by decide⟩ demoAttached_reachable).2.2⟩

/-- C5: the response of `/next` reads `s.currentIdx` after `s.mu.Unlock()`,
outside any locked section.  With two `/next` requests started at index 0 of
`demoStations`, where the second runs its locked section before the first
builds its response, the first request answers the station `B` (the name at
index 1, taken under the lock) with the index 2, while the station at index 2
is `C`. -/
theorem next_response_reads_index_unlocked :
    main (some demoStations) none true = some raceInit ∧
    (run raceInit raceActs).map (fun w => w.nextReqs) =
      some [NextPc.done { message := "Switched to next station", station := "B", index := 2 },
            NextPc.updated "C"] ∧
    (goIndex demoStations 2).map Station.Name = some "C" ∧
    (goIndex demoStations 1).map Station.Name = some "B" :=
  ⟨rfl, rfl, rfl, rfl⟩

theorem startStreamer_ends (c : Conn) (o : RunOutcome) :
    ∃ mid, startStreamer c o = Op.attach c :: mid ++ [Op.detach, Op.connClose c] ∧
      Op.detach ∉ mid ∧ (∀ c1, Op.connClose c1 ∉ mid) ∧ (∀ c1, Op.attach c1 ∉ mid) := by
  cases o with
  | pipeFailed => exact ⟨[Op.selectStation, Op.stdoutPipe false], rfl, by simp, by simp, by simp⟩
  | startFailed =>
    exact ⟨[Op.selectStation, Op.stdoutPipe true, Op.start false, Op.stdoutClose true],
      rfl, by simp, by simp, by simp⟩
  | started copy closeOk wait =>
    exact ⟨[Op.selectStation, Op.stdoutPipe true, Op.start true, Op.copy copy,
      Op.stdoutClose closeOk, Op.wait wait, Op.logExit (classifyWait wait)],
      rfl, by simp, by simp, by simp⟩

/-- Back at `Accept` after the iteration of an accepted connection, the loop
has performed the whole body of that iteration. -/
theorem iteration_trace (w w1 w2 : World) (o : RunOutcome) (acts : List Action)
    (hacc : step w (.accept (.conn o)) = some w1) (hrun : run w1 acts = some w2)
    (hback : w2.streamer = .running []) :
    ∃ later, w2.trace = w.trace ++ startStreamer w.accepted o ++ later ∧
      (Closer.streamer, w.accepted) ∈ w2.closeCalls := by
  obtain ⟨_, _, _, _, hp⟩ := accept_conn_progress w w1 o hacc
  rcases run_progress _ _ _ acts w1 w2 hp hrun with ⟨t, op, rest, hs, _⟩ | ⟨later, htr, hcl⟩
  · rw [hback] at hs
    cases hs
  · refine ⟨later, htr, hcl ?_⟩
    obtain ⟨mid, hmid, _⟩ := startStreamer_ends w.accepted o
    rw [hmid]
    simp

/-- The iteration of an accepted connection, left alone, comes back to `Accept`. -/
theorem iteration_completes (w w1 : World) (o : RunOutcome) (hreach : Reachable w)
    (hacc : step w (.accept (.conn o)) = some w1) :
    ∃ w3, run w1 (List.replicate (startStreamer w.accepted o).length Action.streamerOp) = some w3 ∧
      w3.streamer = .running [] ∧ w3.trace = w.trace ++ startStreamer w.accepted o := by
  obtain ⟨_, hs1, hst, htr, _⟩ := accept_conn_progress w w1 o hacc
  have hv : ValidIndex w1.store := by rw [hst]; exact (reachable_inv w hreach).1
  obtain ⟨w3, h1, h2, h3⟩ := run_streamerOps _ w1 hv hs1
  exact ⟨w3, h1, h2, by rw [h3, htr]⟩

/-- C8: after a successful accept in a reachable state, for every outcome of
the iteration (pipe failure, start failure, copy ended by end of stream or by
a write error, any result of `Wait`) and every interleaving with the handlers:
the body of the iteration ends with the locked clearing of `currentConn`
followed by `conn.Close()` on the accepted connection and contains no other
clearing or close; when the loop is back at `Accept` it has performed that
whole body, the store holds no connection and the loop has called `Close` on
the accepted connection; and the iteration, left alone, does come back to
`Accept`. -/
theorem streamer_iteration_detaches_then_closes (w w1 w2 : World) (o : RunOutcome)
    (acts : List Action) (hreach : Reachable w)
    (hacc : step w (.accept (.conn o)) = some w1) (hrun : run w1 acts = some w2)
    (hback : w2.streamer = .running []) :
    (∃ mid, startStreamer w.accepted o =
        Op.attach w.accepted :: mid ++ [Op.detach, Op.connClose w.accepted] ∧
      Op.detach ∉ mid ∧ (∀ c1, Op.connClose c1 ∉ mid)) ∧
    (∃ later, w2.trace = w.trace ++ startStreamer w.accepted o ++ later) ∧
    w2.store.currentConn = none ∧
    (Closer.streamer, w.accepted) ∈ w2.closeCalls ∧
    (∃ w3, run w1 (List.replicate (startStreamer w.accepted o).length Action.streamerOp)
        = some w3 ∧
      w3.streamer = .running [] ∧ w3.trace = w.trace ++ startStreamer w.accepted o) := by
  obtain ⟨mid, hmid, hd, hc, _⟩ := startStreamer_ends w.accepted o
  obtain ⟨later, htr, hcl⟩ := iteration_trace w w1 w2 o acts hacc hrun hback
  have hinv2 : Inv w2 :=
    run_inv acts w1 w2 (step_inv w w1 _ (reachable_inv w hreach) hacc) hrun
  have hnone : w2.store.currentConn = none := by
    have := hinv2.2.2
    rw [hback] at this
    exact this
  exact ⟨⟨mid, hmid, hd, hc⟩, ⟨later, htr⟩, hnone, hcl, iteration_completes w w1 o hreach hacc⟩

/-- Witness of C8: the accepted connection is closed by a `/next` request while
the loop is streaming; the loop then finishes its iteration. -/
theorem streamer_iteration_detaches_then_closes_witness :
    Reachable demoInit ∧
    step demoInit (.accept (.conn demoOutcome)) = some demoAccepted ∧
    run demoAccepted (demoSwitchActs ++ List.replicate 8 Action.streamerOp) = some demoFinal ∧
    demoFinal.streamer = .running [] ∧
    demoFinal.store.currentConn = none ∧
    (Closer.streamer, demoInit.accepted) ∈ demoFinal.closeCalls :=
  ⟨demoInit_reachable, rfl, rfl, rfl,
   (streamer_iteration_detaches_then_closes demoInit demoAccepted demoFinal demoOutcome
     (demoSwitchActs ++ List.replicate 8 Action.streamerOp) demoInit_reachable rfl rfl rfl).2.2.1,
   (streamer_iteration_detaches_then_closes demoInit demoAccepted demoFinal demoOutcome
     (demoSwitchActs ++ List.replicate 8 Action.streamerOp) demoInit_reachable rfl rfl rfl).2.2.2.1⟩

/-- C9: after a successful accept in a reachable state, when the loop is back
at `Accept` it has performed the whole body of the iteration, and the
iteration left alone does come back to `Accept` whatever the outcome.  When
the process started, that body contains, in this order and next to each other,
the start, the copy, `stdout.Close()`, `Wait` and the line logged for the
result of `Wait`, it calls `Wait` once, and the run goes through the phases
spawning, streaming, draining, reaped; exit code 224 is logged as the expected
EPIPE and any other exit code as unexpected.  When the pipe or the start
fails, the body calls `Wait` not at all and the run goes from spawning to
reaped. -/
theorem pipeline_run_lifecycle (w w1 w2 : World) (o : RunOutcome) (acts : List Action)
    (hreach : Reachable w) (hacc : step w (.accept (.conn o)) = some w1)
    (hrun : run w1 acts = some w2) (hback : w2.streamer = .running []) :
    (∃ later, w2.trace = w.trace ++ startStreamer w.accepted o ++ later) ∧
    (∃ w3, run w1 (List.replicate (startStreamer w.accepted o).length Action.streamerOp)
        = some w3 ∧
      w3.streamer = .running [] ∧ w3.trace = w.trace ++ startStreamer w.accepted o) ∧
    (∀ copy closeOk wait, o = .started copy closeOk wait →
      (∃ pre post, startStreamer w.accepted o =
          pre ++ [Op.start true, Op.copy copy, Op.stdoutClose closeOk, Op.wait wait,
                  Op.logExit (classifyWait wait)] ++ post ∧
        (∀ r, Op.wait r ∉ pre ++ post)) ∧
      ((startStreamer w.accepted o).filter isWait).length = 1 ∧
      phases .spawning (startStreamer w.accepted o) =
        [.spawning, .streaming, .draining, .reaped]) ∧
    (o = .pipeFailed ∨ o = .startFailed →
      ((startStreamer w.accepted o).filter isWait).length = 0 ∧
      phases .spawning (startStreamer w.accepted o) = [.spawning, .reaped]) ∧
    classifyWait (.exitError 224) = .expectedEPIPE 224 ∧
    (∀ code, code ≠ 224 → classifyWait (.exitError code) = .unexpectedExit code) := by
  obtain ⟨later, htr, _⟩ := iteration_trace w w1 w2 o acts hacc hrun hback
  refine ⟨⟨later, htr⟩, iteration_completes w w1 o hreach hacc, ?_, ?_, rfl, ?_⟩
  · intro copy closeOk wait ho
    subst ho
    refine ⟨⟨[Op.attach w.accepted, Op.selectStation, Op.stdoutPipe true],
      [Op.detach, Op.connClose w.accepted], rfl, by simp⟩, rfl, rfl⟩
  · intro ho
    rcases ho with ho | ho <;> (subst ho; exact ⟨rfl, rfl⟩)
  · intro code hcode
    simp only [classifyWait, hcode, if_false]

/-- Witness of C9: the process exits with code 224 after the connection broke. -/
theorem pipeline_run_lifecycle_witness :
    Reachable demoInit ∧
    step demoInit (.accept (.conn demoOutcome)) = some demoAccepted ∧
    run demoAccepted (List.replicate 10 Action.streamerOp ++ [Action.current]) =
      some { demoFinal with store := { demoFinal.store with currentIdx := 1 },
                            closeCalls := [(Closer.streamer, 0)], nextReqs := [] } ∧
    phases .spawning (startStreamer demoInit.accepted demoOutcome) =
      [.spawning, .streaming, .draining, .reaped] ∧
    ((startStreamer demoInit.accepted demoOutcome).filter isWait).length = 1 :=
  ⟨demoInit_reachable, rfl, rfl,
   ((pipeline_run_lifecycle demoInit demoAccepted
      { demoFinal with store := { demoFinal.store with currentIdx := 1 },
                       closeCalls := [(Closer.streamer, 0)], nextReqs := [] }
      demoOutcome (List.replicate 10 Action.streamerOp ++ [Action.current])
      demoInit_reachable rfl rfl rfl).2.2.1 _ _ _ rfl).2.2,
   ((pipeline_run_lifecycle demoInit demoAccepted
      { demoFinal with store := { demoFinal.store with currentIdx := 1 },
                       closeCalls := [(Closer.streamer, 0)], nextReqs := [] }
      demoOutcome (List.replicate 10 Action.streamerOp ++ [Action.current])
      demoInit_reachable rfl rfl rfl).2.2.1 _ _ _ rfl).2.1⟩

end WifiRadio
